import Mathlib

/-!
Verification of the RL training core of `cartpole.py`: a DQN agent with
experience replay, epsilon-greedy exploration, a soft-updated target network
and an early-stopping training loop.  Every definition below is a shallow
embedding of the corresponding Python construct; machine floats are modelled
as real numbers, and randomness (the replay-buffer draw, the exploration
coin) is made explicit as an extra argument.
-/

open Filter

/-! ### Hyperparameters (lines 82-89 of `cartpole.py`) -/

def BATCH_SIZE : Nat := 128

def GAMMA : ℝ := 0.8

def EPS_START : ℝ := 0.9

def EPS_END : ℝ := 0.05

def EPS_DECAY : ℝ := 1000

def TAU : ℝ := 0.005

def EARLY_STOPPING_THRESHOLD : Nat := 10

/-! ### Data model -/

/-- A CartPole observation: four floats
(cart position, cart velocity, pole angle, pole angular velocity). -/
def Obs : Type := Fin 4 → ℝ

/-- The `Transition` namedtuple of line 41: `('state', 'action', 'next_state',
'reward')`; `next_state = None` (here `Option.none`) marks a terminal
transition. -/
structure Transition where
  state : Obs
  action : Nat
  next_state : Option Obs
  reward : ℝ

/-! ### ReplayMemory (lines 43-55)

`self.memory = deque([], maxlen=capacity)`: a bounded FIFO queue, oldest
element first.  `push` appends on the right; a `deque` at its `maxlen`
silently discards its leftmost (oldest) element on append. -/

structure ReplayMemory (α : Type) where
  capacity : Nat
  memory : List α

namespace ReplayMemory

/-- `push`: append a transition; at capacity the deque evicts the oldest
entry. -/
def push (m : ReplayMemory α) (x : α) : ReplayMemory α :=
  if m.memory.length < m.capacity then
    ⟨m.capacity, m.memory ++ [x]⟩
  else
    ⟨m.capacity, (m.memory ++ [x]).drop (m.memory.length + 1 - m.capacity)⟩

/-- Push a whole list of elements in order. -/
def pushAll (m : ReplayMemory α) (xs : List α) : ReplayMemory α :=
  xs.foldl push m

/-- The buffer holding nothing, with capacity `c` (line 103 uses `c = 10000`). -/
def empty (α : Type) (c : Nat) : ReplayMemory α := ⟨c, []⟩

/-- `len(buffer)` (lines 54-55). -/
def size (m : ReplayMemory α) : Nat := m.memory.length

/-- `random.sample(self.memory, batch_size)` (lines 51-52): the library draws
`batch_size` distinct positions of the population and returns the elements at
those positions; it raises `ValueError` when no such draw exists.  The drawn
index list `idxs` is the explicit randomness: an outcome is possible exactly
when the draw is a list of distinct in-range positions. -/
def sample [Inhabited α] (m : ReplayMemory α) (idxs : List Nat) :
    Option (List α) :=
  if idxs.Nodup ∧ ∀ i ∈ idxs, i < m.memory.length then
    some (idxs.map fun i => m.memory.getD i default)
  else
    none

end ReplayMemory

/-! ### Basic replay-buffer lemmas -/

theorem ReplayMemory.push_memory (m : ReplayMemory α) (x : α)
    (h : m.memory.length ≤ m.capacity) :
    (m.push x).memory = (m.memory ++ [x]).drop (m.memory.length + 1 - m.capacity) := by
  unfold push
  rcases lt_or_eq_of_le h with h' | h'
  · simp [h', Nat.sub_eq_zero_of_le h']
  · have : ¬ m.memory.length < m.capacity := by omega
    simp [this]

theorem ReplayMemory.push_capacity (m : ReplayMemory α) (x : α) :
    (m.push x).capacity = m.capacity := by
  unfold push
  split <;> rfl

theorem ReplayMemory.push_length_le (m : ReplayMemory α) (x : α)
    (h : m.memory.length ≤ m.capacity) :
    (m.push x).memory.length ≤ m.capacity := by
  rw [ReplayMemory.push_memory m x h]
  simp only [List.length_drop, List.length_append, List.length_singleton]
  omega

theorem ReplayMemory.pushAll_memory (xs : List α) :
    ∀ (m : ReplayMemory α), m.memory.length ≤ m.capacity →
      (m.pushAll xs).memory =
        (m.memory ++ xs).drop (m.memory.length + xs.length - m.capacity) := by
  induction xs with
  | nil => intro m h; simp [ReplayMemory.pushAll, Nat.sub_eq_zero_of_le h]
  | cons x xs ih =>
    intro m h
    have hstep : (m.pushAll (x :: xs)) = (m.push x).pushAll xs := by
      simp [ReplayMemory.pushAll]
    have hle : (m.push x).memory.length ≤ (m.push x).capacity := by
      rw [ReplayMemory.push_capacity]; exact ReplayMemory.push_length_le m x h
    rw [hstep, ih (m.push x) hle]
    rw [ReplayMemory.push_memory m x h, ReplayMemory.push_capacity]
    have hd : m.memory.length + 1 - m.capacity ≤ (m.memory ++ [x]).length := by
      simp
    rw [← List.drop_append_of_le_length hd, List.drop_drop]
    have harr : m.memory ++ [x] ++ xs = m.memory ++ x :: xs := by simp
    rw [harr]
    congr 1
    simp only [List.length_drop, List.length_append, List.length_cons,
      List.length_nil]
    omega

theorem ReplayMemory.pushAll_capacity (xs : List α) :
    ∀ (m : ReplayMemory α), (m.pushAll xs).capacity = m.capacity := by
  induction xs with
  | nil => intro m; rfl
  | cons x xs ih =>
    intro m
    have hstep : (m.pushAll (x :: xs)) = (m.push x).pushAll xs := by
      simp [ReplayMemory.pushAll]
    rw [hstep, ih, ReplayMemory.push_capacity]

/-! ### TD-target computation inside `optimize_model` (lines 149-182)

The target network enters only through its per-action value estimates on an
observation, so it is embedded as a function `Obs → List ℝ` (one value per
action).  `.max(1).values` is the row-wise maximum of those values. -/

/-- Row-wise maximum of a per-action value list, as computed by
`tensor.max(1).values` (defined for a non-empty row; an empty action space is
a configuration error). -/
def rowMax : List ℝ → ℝ
  | [] => 0
  | q :: qs => qs.foldl max q

/-- The bootstrapped value `V(s')` of one transition (lines 173-175): `0` for
a terminal transition (its entry of `next_state_values` is never overwritten),
`max_a target_net(s')[a]` otherwise. -/
def bootstrapValue (targetNet : Obs → List ℝ) : Option Obs → ℝ
  | none => 0
  | some s => rowMax (targetNet s)

/-- One row of `expected_state_action_values` (line 178):
`next_state_values * GAMMA + reward_batch`. -/
def tdTargetRow (targetNet : Obs → List ℝ) (tr : Transition) : ℝ :=
  bootstrapValue targetNet tr.next_state * GAMMA + tr.reward

/-- `[s for s in batch.next_state if s is not None]` (line 159). -/
def nonFinalNextStates (batch : List Transition) : List Obs :=
  batch.filterMap (fun tr => tr.next_state)

/-- The TD targets of a sampled batch.  Line 159 applies `torch.cat` to the
list of non-final next states, and `torch.cat` of an *empty* list of tensors
raises a `RuntimeError`; the embedding returns `none` exactly in that case,
and otherwise the row-wise targets of line 178. -/
def computeTdTargets (targetNet : Obs → List ℝ) (batch : List Transition) :
    Option (List ℝ) :=
  match nonFinalNextStates batch with
  | [] => none
  | _ :: _ => some (batch.map (tdTargetRow targetNet))

/-! ### Networks, optimizer and the soft update (lines 98-103, 184-189, 225-233)

A network's parameters are embedded as a real-valued family over an index
type `ι` (every entry of every parameter tensor of the `state_dict`,
flattened).  The gradient step of lines 184-189 (`loss.backward()`,
gradient clipping, `optimizer.step()`) acts through the optimizer, which was
constructed on `policy_net.parameters()` alone (line 102); it is embedded as
an abstract update `gradStep` of the policy parameters and the optimizer's
own state. -/

/-- Flattened parameters of one network. -/
def Params (ι : Type) : Type := ι → ℝ

/-- The elementwise blend of line 231:
`policy*TAU + target*(1-TAU)`, for an arbitrary rate `tau`. -/
def softBlend {ι : Type} (tau : ℝ) (policy target : Params ι) : Params ι :=
  fun i => policy i * tau + target i * (1 - tau)

/-- Mutable training state: the two networks, the optimizer state and the
replay memory. -/
structure TrainState (ι O : Type) where
  policy : Params ι
  target : Params ι
  optState : O
  memory : ReplayMemory Transition

/-- Lines 98-103: both networks are created and
`target_net.load_state_dict(policy_net.state_dict())` copies the policy
parameters into the target network exactly. -/
def initTrainState {ι O : Type} (p0 : Params ι) (o0 : O)
    (mem : ReplayMemory Transition) : TrainState ι O :=
  { policy := p0, target := p0, optState := o0, memory := mem }

/-- `optimize_model()` (lines 149-189): returns unchanged (`return`, line
151) when the buffer holds fewer than `BATCH_SIZE` transitions; otherwise
performs one gradient step on the policy network through the optimizer.
`gradStep` consumes the sampled batch together with the current policy
parameters and optimizer state and yields their updated values; nothing else
in the function writes to the state. -/
def optimizeModel {ι O : Type}
    (gradStep : List Transition → Params ι → O → Params ι × O)
    (batch : List Transition) (s : TrainState ι O) : TrainState ι O :=
  if s.memory.size < BATCH_SIZE then s
  else
    let po := gradStep batch s.policy s.optState
    { s with policy := po.1, optState := po.2 }

/-- The soft update of lines 225-233: every key of the target `state_dict`
is overwritten with `policy_net_state_dict[key]*TAU+target_net_state_dict[key]*(1-TAU)`. -/
def softUpdate {ι O : Type} (s : TrainState ι O) : TrainState ι O :=
  { s with target := softBlend TAU s.policy s.target }

/-- Iterating the soft blend with the policy parameters held fixed. -/
def iterBlend {ι : Type} (tau : ℝ) (policy : Params ι) :
    Nat → Params ι → Params ι
  | 0, t => t
  | n + 1, t => softBlend tau policy (iterBlend tau policy n t)

/-! ### Epsilon schedule (line 110) -/

/-- `eps_threshold = EPS_END + (EPS_START - EPS_END) * math.exp(-1 * steps_done / EPS_DECAY)`. -/
noncomputable def epsSchedule (t : Nat) : ℝ :=
  EPS_END + (EPS_START - EPS_END) * Real.exp (-1 * (t : ℝ) / EPS_DECAY)

/-! ### Reward shaping (lines 24-29) -/

/-- The shaped reward of line 27: `1 * (1/(1-abs(obs[0]))) - abs(obs[2])`. -/
noncomputable def shapedReward (obs : Obs) : ℝ :=
  1 * (1 / (1 - |obs 0|)) - |obs 2|

/-- `CustomReward.step` (lines 24-29): forwards the wrapped environment's
result but replaces the raw reward with the shaped one. -/
noncomputable def customRewardStep (obs : Obs) (_rawReward : ℝ)
    (terminated truncated : Bool) : Obs × ℝ × Bool × Bool :=
  (obs, shapedReward obs, terminated, truncated)

/-! ### One tick of the inner episode loop (lines 205-220) -/

/-- Lines 209-217: `done = terminated or truncated`; `next_state` is `None`
when `terminated` and the freshly observed state otherwise; the transition
`(state, action, next_state, reward)` is pushed.  Returns the stored
transition together with `done`. -/
def formTransition (state : Obs) (action : Nat) (observation : Obs)
    (reward : ℝ) (terminated truncated : Bool) : Transition × Bool :=
  (⟨state, action, if terminated then none else some observation, reward⟩,
    terminated || truncated)

/-! ### Early stopping in the main loop (lines 197-250) -/

/-- The truncation-streak bookkeeping carried across episodes:
`trunc_count` and `prev_trunc_ep` (lines 197-198 initialize both to 0). -/
structure EarlyStopState where
  trunc_count : Nat
  prev_trunc_ep : Nat
deriving DecidableEq

/-- Lines 240-246, run after episode `i` with that episode's final
`truncated` flag: an untruncated episode leaves the state alone; a truncated
one extends the streak when `trunc_count == 0 or i_episode - 1 == prev_trunc_ep`
(Python integer arithmetic, hence the comparison over `ℤ`) and otherwise
restarts it at 1. -/
def episodeUpdate (s : EarlyStopState) (i : Nat) (truncated : Bool) :
    EarlyStopState :=
  if truncated then
    if s.trunc_count = 0 ∨ (i : ℤ) - 1 = (s.prev_trunc_ep : ℤ) then
      { trunc_count := s.trunc_count + 1, prev_trunc_ep := i }
    else
      { trunc_count := 1, prev_trunc_ep := i }
  else s

/-- The episode-level skeleton of the main loop (lines 200-250), with the
environment abstracted to the per-episode truncation outcome `trunc`:
starting at episode `i` with streak state `s` and `n` episodes of budget
left, count how many episodes actually run.  After each episode the loop
breaks when `trunc_count > EARLY_STOPPING_THRESHOLD` (line 248). -/
def runAux (trunc : Nat → Bool) : Nat → Nat → EarlyStopState → Nat
  | 0, _, _ => 0
  | n + 1, i, s =>
    let s' := episodeUpdate s i (trunc i)
    if EARLY_STOPPING_THRESHOLD < s'.trunc_count then 1
    else 1 + runAux trunc n (i + 1) s'

/-- Number of episodes the `for i_episode in range(num_episodes)` loop
executes, given each episode's truncation outcome. -/
def episodesRun (trunc : Nat → Bool) (num_episodes : Nat) : Nat :=
  runAux trunc num_episodes 0 ⟨0, 0⟩

/-! ## Claim theorems -/

/-- C3: pushing more than `C = capacity` elements leaves exactly the `C` most
recently pushed elements in the buffer (in order), the occupancy is exactly
`C`, and a single `push` never grows the buffer beyond its capacity. -/
theorem replay_buffer_fifo_eviction {α : Type} (C : Nat) (xs : List α)
    (h : C < xs.length) :
    ((ReplayMemory.empty α C).pushAll xs).size = C ∧
    ((ReplayMemory.empty α C).pushAll xs).memory = xs.drop (xs.length - C) ∧
    (∀ (m : ReplayMemory α) (x : α), m.memory.length ≤ m.capacity →
      (m.push x).memory.length ≤ m.capacity) := by
  have hmem := ReplayMemory.pushAll_memory xs (ReplayMemory.empty α C)
    (by simp [ReplayMemory.empty])
  refine ⟨?_, ?_, fun m x hm => ReplayMemory.push_length_le m x hm⟩
  · rw [ReplayMemory.size, hmem]
    simp only [ReplayMemory.empty, List.nil_append, List.length_nil,
      List.length_drop]
    omega
  · rw [hmem]
    simp only [ReplayMemory.empty, List.nil_append, List.length_nil,
      Nat.zero_add]

/-- Witness for C3 at a concrete capacity-2 buffer receiving five pushes. -/
theorem replay_buffer_fifo_eviction_witness :
    ((ReplayMemory.empty Nat 2).pushAll [1, 2, 3, 4, 5]).size = 2 ∧
    ((ReplayMemory.empty Nat 2).pushAll [1, 2, 3, 4, 5]).memory = [4, 5] := by
  have h := replay_buffer_fifo_eviction 2 [1, 2, 3, 4, 5] (by decide)
  exact ⟨h.1, by simpa using h.2.1⟩

/-- C8: invoking `optimize_model` with buffer occupancy below `BATCH_SIZE`
is a complete no-op: the whole training state — policy parameters, optimizer
state, target parameters and replay memory — is returned unchanged. -/
theorem optimize_model_underfull_noop {ι O : Type}
    (gradStep : List Transition → Params ι → O → Params ι × O)
    (batch : List Transition) (s : TrainState ι O)
    (h : s.memory.size < BATCH_SIZE) :
    optimizeModel gradStep batch s = s ∧
    (optimizeModel gradStep batch s).policy = s.policy ∧
    (optimizeModel gradStep batch s).optState = s.optState ∧
    (optimizeModel gradStep batch s).memory = s.memory := by
  unfold optimizeModel
  simp [h]

/-- Witness for C8 at an empty buffer (occupancy 0 < 128). -/
theorem optimize_model_underfull_noop_witness :
    optimizeModel (fun _ p o => (p, o)) []
        (initTrainState (fun _ : Fin 1 => (0 : ℝ)) ()
          (ReplayMemory.empty Transition 10000)) =
      initTrainState (fun _ : Fin 1 => (0 : ℝ)) ()
        (ReplayMemory.empty Transition 10000) :=
  (optimize_model_underfull_noop _ _ _ (by decide)).1

/-- C6: the target parameters are initialized as an exact copy of the policy
parameters; the gradient step inside `optimize_model` (the only use of the
optimizer, which holds `policy_net.parameters()` only) never writes to them;
and the per-step soft update rewrites them with the elementwise blend of the
current policy and target parameters — so over any run the target moves only
by initialization and blending. -/
theorem target_params_only_blend {ι O : Type} :
    (∀ (p0 : Params ι) (o0 : O) (mem : ReplayMemory Transition),
      (initTrainState p0 o0 mem).target = p0 ∧
      (initTrainState p0 o0 mem).policy = p0) ∧
    (∀ (gradStep : List Transition → Params ι → O → Params ι × O)
        (batch : List Transition) (s : TrainState ι O),
      (optimizeModel gradStep batch s).target = s.target) ∧
    (∀ s : TrainState ι O,
      (softUpdate s).target = softBlend TAU s.policy s.target ∧
      (softUpdate s).policy = s.policy) ∧
    (∀ (gradStep : List Transition → Params ι → O → Params ι × O)
        (batch : List Transition) (s : TrainState ι O),
      (softUpdate (optimizeModel gradStep batch s)).target =
        softBlend TAU (optimizeModel gradStep batch s).policy s.target) := by
  refine ⟨fun p0 o0 mem => ⟨rfl, rfl⟩, ?_, fun s => ⟨rfl, rfl⟩, ?_⟩
  · intro gradStep batch s
    unfold optimizeModel
    split <;> rfl
  · intro gradStep batch s
    have htgt : (optimizeModel gradStep batch s).target = s.target := by
      unfold optimizeModel
      split <;> rfl
    rw [softUpdate, htgt]

/-- C7: the soft update is the elementwise convex blend
`target' = tau * policy + (1 - tau) * target`; with `tau = 1` one application
copies the policy exactly, and iterating it at the source's rate `TAU` with
the policy held fixed drives every target entry to the policy entry. -/
theorem soft_update_blend_properties {ι : Type} :
    (∀ (tau : ℝ) (p t : Params ι) (i : ι),
      softBlend tau p t i = tau * p i + (1 - tau) * t i) ∧
    (∀ p t : Params ι, softBlend 1 p t = p) ∧
    (∀ (p t : Params ι) (i : ι),
      Filter.Tendsto (fun n => iterBlend TAU p n t i) Filter.atTop
        (nhds (p i))) := by
  refine ⟨fun tau p t i => by simp [softBlend]; ring, ?_, ?_⟩
  · intro p t
    funext i
    simp [softBlend]
  · intro p t i
    have hclosed : ∀ n, iterBlend TAU p n t i = p i + (1 - TAU) ^ n * (t i - p i) := by
      intro n
      induction n with
      | zero => simp [iterBlend]
      | succ n ih => simp only [iterBlend, softBlend, ih, pow_succ]; ring
    have hpow : Filter.Tendsto (fun n : ℕ => (1 - TAU) ^ n) Filter.atTop (nhds 0) := by
      apply tendsto_pow_atTop_nhds_zero_of_lt_one <;> rw [TAU] <;> norm_num
    have hmul := hpow.mul_const (t i - p i)
    have hadd := hmul.const_add (p i)
    simp only [zero_mul, add_zero] at hadd
    exact Filter.Tendsto.congr (fun n => (hclosed n).symm) hadd

/-- C9: `CustomReward.step` replaces the raw reward with
`1/(1 - |obs[0]|) - |obs[2]|`; an observation with `obs[0] = 0` and
`obs[2] = 0` is rewarded exactly `1`, and one with `obs[0] = 0.5` and
`obs[2] = 0.3` exactly `1.7`. -/
theorem reward_shaping_formula :
    (∀ (obs : Obs) (r : ℝ) (term trunc : Bool),
      (customRewardStep obs r term trunc).2.1 = 1 / (1 - |obs 0|) - |obs 2|) ∧
    (∀ obs : Obs, obs 0 = 0 → obs 2 = 0 → shapedReward obs = 1) ∧
    (∀ obs : Obs, obs 0 = 0.5 → obs 2 = 0.3 → shapedReward obs = 1.7) := by
  refine ⟨fun obs r term trunc => by simp [customRewardStep, shapedReward], ?_, ?_⟩
  · intro obs h0 h2
    simp [shapedReward, h0, h2]
  · intro obs h0 h2
    rw [shapedReward, h0, h2,
      abs_of_nonneg (by norm_num : (0 : ℝ) ≤ 0.5),
      abs_of_nonneg (by norm_num : (0 : ℝ) ≤ 0.3)]
    norm_num

/-- Witness for C9 at the two concrete observations named by the claim. -/
theorem reward_shaping_formula_witness :
    shapedReward (fun _ => 0) = 1 ∧
    shapedReward (fun i => if i = 0 then 0.5 else if i = 2 then 0.3 else 0) = 1.7 :=
  ⟨reward_shaping_formula.2.1 (fun _ => 0) rfl rfl,
    reward_shaping_formula.2.2 (fun i => if i = 0 then 0.5 else if i = 2 then 0.3 else 0)
      rfl rfl⟩

/-- C10: the stored transition's `next_state` is `None` exactly when the
step reported `terminated`; an episode end by truncation alone stores the
real observed next state and still sets `done`. -/
theorem transition_terminal_sentinel (state : Obs) (action : Nat)
    (observation : Obs) (reward : ℝ) (terminated truncated : Bool) :
    ((formTransition state action observation reward terminated truncated).1.next_state
        = none ↔ terminated = true) ∧
    (truncated = true → terminated = false →
      (formTransition state action observation reward terminated truncated).1.next_state
          = some observation ∧
      (formTransition state action observation reward terminated truncated).2 = true) := by
  cases terminated <;> cases truncated <;> simp [formTransition]

/-- Witness for C10: a truncation-only episode end at a concrete step. -/
theorem transition_terminal_sentinel_witness :
    (formTransition (fun _ => 0) 0 (fun _ => 1) 0 false true).1.next_state
        = some (fun _ => 1) ∧
    (formTransition (fun _ => 0) 0 (fun _ => 1) 0 false true).2 = true :=
  (transition_terminal_sentinel (fun _ => 0) 0 (fun _ => 1) 0 false true).2 rfl rfl

/-! ## C1: TD target on an all-terminal batch -/

/-- A terminal transition (its `next_state` is `None`). -/
def termTransition : Transition := ⟨fun _ => 0, 0, none, 1⟩

/-- A batch whose transitions are all terminal has no non-final next states,
so line 159's `torch.cat` receives an empty list and raises. -/
theorem computeTdTargets_all_terminal (targetNet : Obs → List ℝ)
    (batch : List Transition) (hall : ∀ tr ∈ batch, tr.next_state = none) :
    computeTdTargets targetNet batch = none := by
  have h : nonFinalNextStates batch = [] := by
    rw [nonFinalNextStates, List.filterMap_eq_nil_iff]
    exact hall
  simp [computeTdTargets, h]

/-- The per-row TD target of a terminal transition is exactly its reward
(zero bootstrap contribution). -/
theorem tdTargetRow_terminal (targetNet : Obs → List ℝ) (tr : Transition)
    (h : tr.next_state = none) : tdTargetRow targetNet tr = tr.reward := by
  simp [tdTargetRow, h, bootstrapValue]

/-- C1: on a sampled batch of `BATCH_SIZE` transitions that are all terminal,
`optimize_model` never computes a TD target at all: the list of non-final
next states is empty, so `torch.cat` at line 159 raises (embedded as `none`)
— even though the row formula of line 178 would indeed reduce to exactly the
reward for a terminal row, as the code's own comments promise. -/
theorem td_target_all_terminal_batch_crash :
    nonFinalNextStates (List.replicate BATCH_SIZE termTransition) = [] ∧
    computeTdTargets (fun _ => [0, 0]) (List.replicate BATCH_SIZE termTransition)
        = none ∧
    tdTargetRow (fun _ => [0, 0]) termTransition = termTransition.reward := by
  refine ⟨?_, ?_, tdTargetRow_terminal _ _ rfl⟩
  · rw [nonFinalNextStates, List.filterMap_eq_nil_iff]
    intro tr htr
    rw [List.eq_of_mem_replicate htr]
    rfl
  · exact computeTdTargets_all_terminal _ _
      (fun tr htr => by rw [List.eq_of_mem_replicate htr]; rfl)

/-! ## C4: the `sample(k)` contract -/

/-- C4: whenever `k ≤ len(buffer)` some draw of `k` distinct in-range
positions exists and succeeds with `k` results; every successful draw returns
one element per drawn position, positions pairwise distinct (sampling without
replacement) and every returned element a member of the buffer's contents;
and when `k > len(buffer)` every draw of `k` positions fails — the failure is
deterministic, independent of the randomness. -/
theorem sample_contract {α : Type} [Inhabited α] (m : ReplayMemory α) (k : Nat) :
    (k ≤ m.memory.length →
      ∃ idxs out, idxs.length = k ∧ m.sample idxs = some out ∧ out.length = k) ∧
    (∀ (idxs : List Nat) (out : List α), m.sample idxs = some out →
      out.length = idxs.length ∧ idxs.Nodup ∧ ∀ x ∈ out, x ∈ m.memory) ∧
    (m.memory.length < k → ∀ idxs : List Nat, idxs.length = k →
      m.sample idxs = none) := by
  refine ⟨?_, ?_, ?_⟩
  · intro hk
    refine ⟨List.range k, (List.range k).map (fun i => m.memory.getD i default),
      List.length_range k, ?_, by simp⟩
    unfold ReplayMemory.sample
    rw [if_pos ⟨List.nodup_range k,
      fun i hi => lt_of_lt_of_le (List.mem_range.mp hi) hk⟩]
  · intro idxs out hout
    unfold ReplayMemory.sample at hout
    by_cases hcond : idxs.Nodup ∧ ∀ i ∈ idxs, i < m.memory.length
    · rw [if_pos hcond, Option.some_inj] at hout
      obtain ⟨hnd, hbound⟩ := hcond
      subst hout
      refine ⟨by simp, hnd, ?_⟩
      intro x hx
      rw [List.mem_map] at hx
      obtain ⟨i, hi, hxi⟩ := hx
      have hlt := hbound i hi
      rw [← hxi, List.getD_eq_getElem m.memory default hlt]
      exact List.getElem_mem hlt
    · rw [if_neg hcond] at hout
      exact absurd hout (by simp)
  · intro hk idxs hlen
    unfold ReplayMemory.sample
    rw [if_neg]
    rintro ⟨hnd, hbound⟩
    have hcard : idxs.toFinset.card = idxs.length := List.toFinset_card_of_nodup hnd
    have hsub : idxs.toFinset ⊆ Finset.range m.memory.length := by
      intro i hi
      exact Finset.mem_range.mpr (hbound i (List.mem_toFinset.mp hi))
    have hle := Finset.card_le_card hsub
    rw [hcard, Finset.card_range] at hle
    omega

/-- Witness for C4 at a two-element buffer: a size-1 draw succeeds and a
size-3 request fails. -/
theorem sample_contract_witness :
    (∃ idxs out, idxs.length = 1 ∧
      (ReplayMemory.mk 2 [5, 7]).sample idxs = some out ∧ out.length = 1) ∧
    (ReplayMemory.mk 2 [5, 7]).sample [0, 1, 2] = none :=
  ⟨(sample_contract ⟨2, [5, 7]⟩ 1).1 (by decide),
    (sample_contract ⟨2, [5, 7]⟩ 3).2.2 (by decide) [0, 1, 2] rfl⟩

/-! ## C5: the epsilon schedule -/

/-- C5: `eps_threshold` as computed at line 110 equals
`EPS_END + (EPS_START - EPS_END) * exp(-t/EPS_DECAY)`; it starts at
`EPS_START`, is strictly decreasing in the step count, converges to
`EPS_END`, and never attains `EPS_END` at any finite step. -/
theorem epsilon_schedule_properties :
    (∀ t : Nat, epsSchedule t =
      EPS_END + (EPS_START - EPS_END) * Real.exp (-1 * (t : ℝ) / EPS_DECAY)) ∧
    epsSchedule 0 = EPS_START ∧
    (∀ s t : Nat, s < t → epsSchedule t < epsSchedule s) ∧
    Tendsto epsSchedule atTop (nhds EPS_END) ∧
    (∀ t : Nat, epsSchedule t ≠ EPS_END) := by
  have hc : (0 : ℝ) < EPS_START - EPS_END := by
    rw [EPS_START, EPS_END]; norm_num
  refine ⟨fun t => rfl, ?_, ?_, ?_, ?_⟩
  · rw [epsSchedule]
    norm_num [Real.exp_zero, EPS_START, EPS_END]
  · intro s t hst
    rw [epsSchedule, epsSchedule]
    have harg : -1 * (t : ℝ) / EPS_DECAY < -1 * (s : ℝ) / EPS_DECAY := by
      rw [EPS_DECAY]
      have hcast : (s : ℝ) < t := by exact_mod_cast hst
      linarith
    exact add_lt_add_left
      (mul_lt_mul_of_pos_left (Real.exp_lt_exp.mpr harg) hc) _
  · have hdiv : Tendsto (fun x : ℝ => -1 * x / EPS_DECAY) atTop atBot := by
      have h1 : Tendsto (fun x : ℝ => x / EPS_DECAY) atTop atTop :=
        Tendsto.atTop_div_const (by rw [EPS_DECAY]; norm_num) tendsto_id
      have h2 : Tendsto (fun x : ℝ => -(x / EPS_DECAY)) atTop atBot :=
        tendsto_neg_atTop_atBot.comp h1
      refine h2.congr fun x => ?_
      ring
    have hnat : Tendsto (fun t : ℕ => -1 * (t : ℝ) / EPS_DECAY) atTop atBot :=
      hdiv.comp tendsto_natCast_atTop_atTop
    have hexp : Tendsto (fun t : ℕ => Real.exp (-1 * (t : ℝ) / EPS_DECAY))
        atTop (nhds 0) := Real.tendsto_exp_atBot.comp hnat
    have hfull := (hexp.const_mul (EPS_START - EPS_END)).const_add EPS_END
    have h0 : EPS_END + (EPS_START - EPS_END) * 0 = EPS_END := by ring
    rw [h0] at hfull
    exact hfull
  · intro t
    have hexp := Real.exp_pos (-1 * (t : ℝ) / EPS_DECAY)
    have : EPS_END < epsSchedule t := by
      rw [epsSchedule]
      nlinarith
    exact ne_of_gt this

/-- Witness for C5: the schedule strictly drops from step 0 to step 1. -/
theorem epsilon_schedule_properties_witness :
    epsSchedule 1 < epsSchedule 0 :=
  epsilon_schedule_properties.2.2.1 0 1 (by decide)

/-! ## C2: early stopping on a truncation streak -/

/-- A truncated episode whose predecessor episode was the last truncated one
extends the streak counter and records itself. -/
theorem episodeUpdate_true_extend (s : EarlyStopState) (i : Nat)
    (hp : s.prev_trunc_ep + 1 = i) :
    episodeUpdate s i true = ⟨s.trunc_count + 1, i⟩ := by
  have hcond : s.trunc_count = 0 ∨ (i : ℤ) - 1 = (s.prev_trunc_ep : ℤ) :=
    Or.inr (by rw [← hp]; push_cast; ring)
  simp [episodeUpdate, hcond]

/-- After any truncated episode the streak counter is at least 1 and the
episode is recorded as the last truncated one. -/
theorem episodeUpdate_true_pos (s : EarlyStopState) (i : Nat) :
    1 ≤ (episodeUpdate s i true).trunc_count ∧
    (episodeUpdate s i true).prev_trunc_ep = i := by
  unfold episodeUpdate
  split
  · split
    · exact ⟨Nat.le_add_left 1 _, rfl⟩
    · exact ⟨Nat.le_refl 1, rfl⟩
  · simp_all

/-- Inside a truncation streak: entering episode `i` with a live streak
(counter `≥ 1`, previous truncated episode `i - 1`) and `k + 1` more
truncated episodes ahead, the loop runs at most `k + 1` further episodes
once the counter is due to pass the threshold within them. -/
theorem runAux_streak_break :
    ∀ (k : Nat) (trunc : Nat → Bool) (n i : Nat) (s : EarlyStopState),
      1 ≤ s.trunc_count → s.prev_trunc_ep + 1 = i →
      (∀ j, j ≤ k → trunc (i + j) = true) →
      EARLY_STOPPING_THRESHOLD < s.trunc_count + k + 1 →
      runAux trunc n i s ≤ k + 1 := by
  intro k
  induction k with
  | zero =>
    intro trunc n i s h1 hp hstreak hth
    cases n with
    | zero => exact Nat.zero_le _
    | succ n =>
      have ht : trunc i = true := by simpa using hstreak 0 (Nat.le_refl 0)
      have hupd : episodeUpdate s i (trunc i) = ⟨s.trunc_count + 1, i⟩ := by
        rw [ht]; exact episodeUpdate_true_extend s i hp
      simp only [runAux, hupd]
      rw [if_pos (show EARLY_STOPPING_THRESHOLD <
        (EarlyStopState.mk (s.trunc_count + 1) i).trunc_count by simp; omega)]
  | succ k ih =>
    intro trunc n i s h1 hp hstreak hth
    cases n with
    | zero => exact Nat.zero_le _
    | succ n =>
      have ht : trunc i = true := by simpa using hstreak 0 (Nat.zero_le _)
      have hupd : episodeUpdate s i (trunc i) = ⟨s.trunc_count + 1, i⟩ := by
        rw [ht]; exact episodeUpdate_true_extend s i hp
      simp only [runAux, hupd]
      by_cases hbr : EARLY_STOPPING_THRESHOLD <
          (EarlyStopState.mk (s.trunc_count + 1) i).trunc_count
      · rw [if_pos hbr]; omega
      · rw [if_neg hbr]
        have hrec := ih trunc n (i + 1) ⟨s.trunc_count + 1, i⟩ (by simp)
          (by simp)
          (fun j hj => by
            rw [show i + 1 + j = i + (j + 1) by omega]
            exact hstreak (j + 1) (by omega))
          (by simp; omega)
        omega

/-- From the first episode of a full streak of `EARLY_STOPPING_THRESHOLD + 1`
truncated episodes, whatever streak state the loop arrives with, it runs at
most `EARLY_STOPPING_THRESHOLD + 1` further episodes. -/
theorem runAux_streak_start (trunc : Nat → Bool) (i n : Nat)
    (s : EarlyStopState)
    (hstreak : ∀ j, j ≤ EARLY_STOPPING_THRESHOLD → trunc (i + j) = true) :
    runAux trunc n i s ≤ EARLY_STOPPING_THRESHOLD + 1 := by
  cases n with
  | zero => exact Nat.zero_le _
  | succ n =>
    have ht : trunc i = true := by simpa using hstreak 0 (Nat.zero_le _)
    have hupd := episodeUpdate_true_pos s i
    simp only [runAux, ht]
    by_cases hbr : EARLY_STOPPING_THRESHOLD < (episodeUpdate s i true).trunc_count
    · rw [if_pos hbr]; omega
    · rw [if_neg hbr]
      have hrec := runAux_streak_break (EARLY_STOPPING_THRESHOLD - 1) trunc n
        (i + 1) (episodeUpdate s i true) hupd.1 (by rw [hupd.2])
        (fun j hj => by
          rw [show i + 1 + j = i + (j + 1) by omega]
          exact hstreak (j + 1) (by omega))
        (by omega)
      omega

/-- Episodes before the streak can only add one executed episode each: the
loop never runs more than `d + EARLY_STOPPING_THRESHOLD + 1` episodes from
`d` episodes before the streak's start. -/
theorem runAux_le_before_streak (trunc : Nat → Bool) (e : Nat)
    (hstreak : ∀ j, j ≤ EARLY_STOPPING_THRESHOLD → trunc (e + j) = true) :
    ∀ (d i n : Nat) (s : EarlyStopState), i + d = e →
      runAux trunc n i s ≤ d + (EARLY_STOPPING_THRESHOLD + 1) := by
  intro d
  induction d with
  | zero =>
    intro i n s hie
    have hi : i = e := by omega
    subst hi
    exact Nat.le_trans (runAux_streak_start trunc i n s hstreak) (by omega)
  | succ d ih =>
    intro i n s hie
    cases n with
    | zero => exact Nat.zero_le _
    | succ n =>
      simp only [runAux]
      by_cases hbr : EARLY_STOPPING_THRESHOLD <
          (episodeUpdate s i (trunc i)).trunc_count
      · rw [if_pos hbr]; omega
      · rw [if_neg hbr]
        have hrec := ih (i + 1) n (episodeUpdate s i (trunc i)) (by omega)
        omega

/-- Truncation outcomes that are all-false until the last
`EARLY_STOPPING_THRESHOLD + 1` budgeted episodes, which all truncate. -/
def lateTrunc : Nat → Bool := fun i => decide (589 ≤ i)

set_option maxRecDepth 10000 in
/-- C2 counterexample: under `lateTrunc` the run of `num_episodes = 600`
contains a streak of `EARLY_STOPPING_THRESHOLD + 1 = 11` consecutive
truncated episodes (episodes 589-599), yet the loop executes all 600
episodes: the break fires only after the final budgeted episode, so the
loop does NOT terminate before reaching the episode budget. -/
theorem early_stopping_streak_at_budget_end :
    (∀ j, j ≤ EARLY_STOPPING_THRESHOLD → lateTrunc (589 + j) = true) ∧
    ¬ episodesRun lateTrunc 600 < 600 := by
  constructor
  · intro j hj
    simp [lateTrunc]
  · decide

/-- C2 (amended): a streak of `EARLY_STOPPING_THRESHOLD + 1` consecutive
truncated episodes that completes strictly before the final budgeted episode
makes the loop terminate early: it executes fewer than `num_episodes`
episodes. -/
theorem early_stopping_before_budget (trunc : Nat → Bool) (e num : Nat)
    (hstreak : ∀ j, j ≤ EARLY_STOPPING_THRESHOLD → trunc (e + j) = true)
    (hroom : e + EARLY_STOPPING_THRESHOLD + 1 < num) :
    episodesRun trunc num < num := by
  have h := runAux_le_before_streak trunc e hstreak e 0 num ⟨0, 0⟩ (by omega)
  unfold episodesRun
  omega

/-- Witness for C2: with every episode truncating, training stops after 11
of the 600 budgeted episodes. -/
theorem early_stopping_before_budget_witness :
    episodesRun (fun _ => true) 600 < 600 :=
  early_stopping_before_budget (fun _ => true) 0 600 (fun j hj => rfl)
    (by decide)
